import Mathlib

/-!
Verification of the lnsd daemon core: a shallow embedding of the byte-stream
transaction utility (`lns/utils.py`), the announce codec and engine
(`lns/net_proto.py`), the control codec and engine (`lns_ng/control_proto.py`)
and the reactor dispatch loop (`lns_ng/reactor.py`).  Bytes are modelled as
`Nat` (each in `0..255` where the code guarantees it), byte strings as
`List Nat`, Python dictionaries as association lists, and Python exceptions as
explicit result values.  A raising operation returns the state as it stood at
the moment of the raise, matching Python's in-place mutation semantics.
-/

/-! ### `lns/utils.py`: `TransactionalBytesIO` -/

/-- State of an in-memory byte stream (`io.BytesIO`): its contents and the
current read/write position. -/
structure ByteStream where
  data : List Nat
  pos : Nat
deriving DecidableEq, Repr

/-- `BytesIO.getvalue()`. -/
def ByteStream.getvalue (s : ByteStream) : List Nat := s.data

/-- `BytesIO.tell()`. -/
def ByteStream.tell (s : ByteStream) : Nat := s.pos

/-- `BytesIO.seek(p)` (absolute). -/
def ByteStream.seekTo (s : ByteStream) (p : Nat) : ByteStream := ⟨s.data, p⟩

/-- `BytesIO.truncate(0)`: clears the contents; the position is left alone. -/
def ByteStream.truncate0 (s : ByteStream) : ByteStream := ⟨[], s.pos⟩

/-- `BytesIO.write(b)`: zero-pads up to the position if it lies past the end,
then overwrites `b.length` bytes starting at the position, extending the
buffer as needed, and advances the position past the written bytes. -/
def ByteStream.write (s : ByteStream) (b : List Nat) : ByteStream :=
  let padded := s.data ++ List.replicate (s.pos - s.data.length) 0
  ⟨padded.take s.pos ++ b ++ padded.drop (s.pos + b.length), s.pos + b.length⟩

/-- `BytesIO.read(n)`: returns up to `n` bytes from the position and advances
the position past them (never past the end). -/
def ByteStream.read (s : ByteStream) (n : Nat) : List Nat × ByteStream :=
  ((s.data.drop s.pos).take n, ⟨s.data, min (s.pos + n) s.data.length⟩)

/-- An operation a client may perform on a transaction's private stream. -/
inductive StreamOp where
  | rd (n : Nat)
  | wr (b : List Nat)
  | sk (p : Nat)
deriving DecidableEq, Repr

def ByteStream.applyOp (s : ByteStream) : StreamOp → ByteStream
  | .rd n => (s.read n).2
  | .wr b => s.write b
  | .sk p => s.seekTo p

def ByteStream.applyOps (s : ByteStream) (ops : List StreamOp) : ByteStream :=
  ops.foldl ByteStream.applyOp s

/-- `BytesIOTransaction.__init__`: snapshots the parent's position and
contents and seeds a private stream with them. -/
structure Txn where
  position : Nat
  buffer : List Nat
  stream : ByteStream
deriving DecidableEq, Repr

def mkTransaction (parent : ByteStream) : Txn :=
  let position := parent.tell
  let buffer := parent.getvalue
  { position := position, buffer := buffer,
    stream := ByteStream.seekTo ⟨buffer, 0⟩ position }

/-- `BytesIOTransaction.commit`: when the contents differ, truncate the
parent, seek to 0 and rewrite it from the transaction stream; in every case
seek the parent to the transaction stream's position. -/
def txnCommit (parent stream : ByteStream) : ByteStream :=
  let p1 := if parent.getvalue ≠ stream.getvalue then
      ((parent.truncate0).seekTo 0).write stream.getvalue
    else parent
  p1.seekTo stream.tell

/-- `BytesIOTransaction.abort`: does nothing to the parent. -/
def txnAbort (parent : ByteStream) : ByteStream := parent

/-! ### `lns/net_proto.py`: constants, hostname validation, Announce codec -/

def PACKET_SIZE : Nat := 512
def ANNOUNCE_ALARM : Nat := 10
def ANNOUNCE_TTL : Nat := 30

/-- `verify_hostname`: `None` models the `ValueError` raise; `some` carries
the ASCII-decoded hostname (byte-for-byte the input, which is all `< 128`). -/
def verify_hostname (hostname_bytes : List Nat) : Option (List Nat) :=
  if hostname_bytes.isEmpty || decide (hostname_bytes.length > PACKET_SIZE - 1) then
    none
  else if hostname_bytes.any (fun byte => decide (byte < 32) || decide (byte > 126)) then
    none
  else
    some hostname_bytes

/-- A hostname as stored in an `Announce`: either a decoded ASCII `str` or a
raw `bytes` object (Python distinguishes the two; `unserialize` can produce
either). -/
inductive HostField where
  | str (s : List Nat)
  | raw (b : List Nat)
deriving DecidableEq, Repr

structure Announce where
  hostname : HostField
deriving DecidableEq, Repr

/-- `bytes.find(b'\x00')` on the buffer tail: index of the first NUL byte,
`none` for Python's `-1`. -/
def findNul : List Nat → Option Nat
  | [] => none
  | b :: rest => if b = 0 then some 0 else (findNul rest).map (· + 1)

/-- `str.encode('ascii')`: fails (raises) when any code point is `≥ 128`. -/
def pyEncodeAscii (s : List Nat) : Option (List Nat) :=
  if s.all (fun c => decide (c < 128)) then some s else none

/-- `Announce.parses`: non-empty buffer whose first byte is the header `0x01`. -/
def Announce.parses (buffer : List Nat) : Bool :=
  match buffer with
  | [] => false
  | b :: _ => b == 1

/-- `Announce.unserialize`: `none` models any raise (wrong length, wrong
header byte, hostname failing validation).  With no NUL in the 511-byte tail
the raw tail bytes become the hostname, unvalidated and undecoded. -/
def Announce.unserialize (buffer : List Nat) : Option Announce :=
  if buffer.length ≠ PACKET_SIZE then none
  else
    match buffer with
    | [] => none
    | header :: rest =>
      if header ≠ 1 then none
      else
        match findNul rest with
        | none => some ⟨HostField.raw rest⟩
        | some i =>
          match verify_hostname (rest.take i) with
          | none => none
          | some s => some ⟨HostField.str s⟩

/-- `Announce.serialize`: header byte `0x01` followed by the hostname
NUL-padded to 511 bytes.  `none` models the raise when the hostname is not an
ASCII-encodable `str` of at most 511 bytes.  (A `raw` hostname is a `bytes`
object, which has no `encode` method.) -/
def Announce.serialize (a : Announce) : Option (List Nat) :=
  match a.hostname with
  | HostField.raw _ => none
  | HostField.str s =>
    match pyEncodeAscii s with
    | none => none
    | some raw_hostname =>
      if raw_hostname.length > PACKET_SIZE - 1 then none
      else some (1 :: (raw_hostname ++ List.replicate (PACKET_SIZE - 1 - raw_hostname.length) 0))

/-! ### Python dict / set primitives used by the engines

Dictionaries are association lists; the engine maintains at most one entry
per key.  `alookup` is `d.get(k)`, `aset` is `d[k] = v`, `adel` is
`del d[k]` (the caller checks presence where Python would raise `KeyError`).
Python sets of IPs are lists; `sadd` is `s.add(x)` and `sremove` is
`s.remove(x)`, whose `none` result models the `KeyError` raise. -/

def alookup {κ α : Type} [DecidableEq κ] (m : List (κ × α)) (k : κ) : Option α :=
  (m.find? (fun p => decide (p.1 = k))).map (·.2)

def aset {κ α : Type} [DecidableEq κ] (m : List (κ × α)) (k : κ) (v : α) : List (κ × α) :=
  match alookup m k with
  | some _ => m.map (fun p => if p.1 = k then (k, v) else p)
  | none => m ++ [(k, v)]

def adel {κ α : Type} [DecidableEq κ] (m : List (κ × α)) (k : κ) : List (κ × α) :=
  m.filter (fun p => decide (p.1 ≠ k))

/-- `defaultdict` read: the stored value, or the default for a missing key. -/
def dgetD {κ α : Type} [DecidableEq κ] (m : List (κ × α)) (k : κ) (d : α) : α :=
  (alookup m k).getD d

def akeys {κ α : Type} (m : List (κ × α)) : List κ := m.map Prod.fst

def sadd {α : Type} [DecidableEq α] (s : List α) (x : α) : List α :=
  if x ∈ s then s else s ++ [x]

def sremove {α : Type} [DecidableEq α] (s : List α) (x : α) : Option (List α) :=
  if x ∈ s then some (s.filter (fun y => decide (y ≠ x))) else none

/-! ### `lns/net_proto.py`: `ProtocolHandler` (announce engine)

Peers are identified by the sender IP of their datagrams: the textual IPv4
address string, a byte string here.  Exceptions escaping an operation are
reported next to the state as mutated up to the point of the raise. -/

/-- A textual IPv4 address, e.g. the bytes of `'10.0.0.7'`. -/
abbrev IpAddr := List Nat

inductive PyExn where
  | keyError
  | valueError
deriving DecidableEq, Repr

structure NetState where
  last_announce_time : Nat
  peer_last_announce_time : List (IpAddr × Nat)
  host_to_ips : List (HostField × List IpAddr)
  ip_to_host : List (IpAddr × HostField)
  peer_buffers : List (IpAddr × List Nat)
deriving DecidableEq, Repr

/-- `query_ip`: `self.ip_to_host.get(ip, None)`. -/
def query_ip (st : NetState) (ip : IpAddr) : Option HostField :=
  alookup st.ip_to_host ip

/-- `query_host`: `list(self.host_to_ips[host])` (the `defaultdict` default is
the empty set; the read-side insertion of the empty set is dropped, as it is
invisible to every lookup). -/
def query_host (st : NetState) (host : HostField) : List IpAddr :=
  dgetD st.host_to_ips host []

/-- `get_host_ip_map`: entries of `host_to_ips` with a non-empty IP set. -/
def get_host_ip_map (st : NetState) : List (HostField × List IpAddr) :=
  st.host_to_ips.filter (fun p => !p.2.isEmpty)

/-- Tail of `handle_messages`' per-packet body after a successful
`Announce.unserialize`: stamps the peer, tears the peer's IP out of the
reverse entry for its old name if it had one (a `KeyError` from `set.remove`
is possible and propagates), then installs the new name in both directions. -/
def recordAnnounce (st : NetState) (host : IpAddr) (name : HostField) (now : Nat) :
    NetState × Option PyExn :=
  let st := { st with peer_last_announce_time := aset st.peer_last_announce_time host now }
  match alookup st.ip_to_host host with
  | some old_hostname =>
    let oldSet := dgetD st.host_to_ips old_hostname []
    let st := { st with host_to_ips := aset st.host_to_ips old_hostname oldSet }
    match sremove oldSet host with
    | none => (st, some PyExn.keyError)
    | some s2 =>
      let st := { st with host_to_ips := aset st.host_to_ips old_hostname s2 }
      let st := { st with ip_to_host := aset st.ip_to_host host name }
      let newSet := dgetD st.host_to_ips name []
      ({ st with host_to_ips := aset st.host_to_ips name (sadd newSet host) }, none)
  | none =>
    let st := { st with ip_to_host := aset st.ip_to_host host name }
    let newSet := dgetD st.host_to_ips name []
    ({ st with host_to_ips := aset st.host_to_ips name (sadd newSet host) }, none)

/-- One iteration of `handle_messages` on a full 512-byte packet: a packet
that does not parse (wrong header) is skipped; a packet whose
`Announce.unserialize` raises propagates the `ValueError`, touching nothing. -/
def processPacket (st : NetState) (host : IpAddr) (packet : List Nat) (now : Nat) :
    NetState × Option PyExn :=
  if Announce.parses packet = false then (st, none)
  else
    match Announce.unserialize packet with
    | none => (st, some PyExn.valueError)
    | some message => recordAnnounce st host message.hostname now

/-- The `while True` loop of `handle_messages` over the transactional buffer:
read 512 bytes; if short, abort (the unread tail is the leftover) and break;
else commit past the packet and process it.  `fuel` bounds the iteration
count; every iteration consumes 512 bytes, so any `fuel > buf.length / 512`
is exact (see `handleLoopF_fuel`). -/
def handleLoopF (host : IpAddr) (now : Nat) : Nat → NetState → List Nat →
    NetState × List Nat × Option PyExn
  | 0, st, buf => (st, buf, none)
  | Nat.succ fuel, st, buf =>
    let packet := buf.take PACKET_SIZE
    if packet.length < PACKET_SIZE then (st, buf, none)
    else
      match processPacket st host packet now with
      | (st', some e) => (st', buf, some e)
      | (st', none) => handleLoopF host now fuel st' (buf.drop PACKET_SIZE)

/-- `handle_messages`: reads the peer's buffer (the `defaultdict` access
installs the empty buffer for a new peer), drains full packets from it, and
writes the leftover back — unless an exception escaped the loop, in which
case the final buffer assignment never runs. -/
def handle_messages (st : NetState) (host : IpAddr) (now : Nat) : NetState × Option PyExn :=
  let buf := dgetD st.peer_buffers host []
  let st := { st with peer_buffers := aset st.peer_buffers host buf }
  match handleLoopF host now (buf.length + 1) st buf with
  | (st', _, some e) => (st', some e)
  | (st', leftover, none) =>
    ({ st' with peer_buffers := aset st'.peer_buffers host leftover }, none)

/-- `on_message`: append the datagram to the sender's buffer, then drain. -/
def on_message (st : NetState) (host : IpAddr) (data : List Nat) (now : Nat) :
    NetState × Option PyExn :=
  let buf := dgetD st.peer_buffers host []
  let st := { st with peer_buffers := aset st.peer_buffers host (buf ++ data) }
  handle_messages st host now

/-- Dropping one TTL-expired peer (`on_announce_timeout`'s per-peer body):
`del` from `peer_last_announce_time`, `del` from `peer_buffers`, look up and
`del` the forward entry, remove the IP from the reverse entry of the old
name.  Each `del`/`remove` raises `KeyError` when the key is absent. -/
def dropPeer (st : NetState) (peer : IpAddr) : NetState × Option PyExn :=
  if (alookup st.peer_last_announce_time peer).isNone then (st, some PyExn.keyError)
  else
    let st := { st with peer_last_announce_time := adel st.peer_last_announce_time peer }
    if (alookup st.peer_buffers peer).isNone then (st, some PyExn.keyError)
    else
      let st := { st with peer_buffers := adel st.peer_buffers peer }
      match alookup st.ip_to_host peer with
      | none => (st, some PyExn.keyError)
      | some peer_name =>
        let st := { st with ip_to_host := adel st.ip_to_host peer }
        let oldSet := dgetD st.host_to_ips peer_name []
        let st := { st with host_to_ips := aset st.host_to_ips peer_name oldSet }
        match sremove oldSet peer with
        | none => (st, some PyExn.keyError)
        | some s2 => ({ st with host_to_ips := aset st.host_to_ips peer_name s2 }, none)

def dropPeers (st : NetState) : List IpAddr → NetState × Option PyExn
  | [] => (st, none)
  | p :: rest =>
    match dropPeer st p with
    | (st', none) => dropPeers st' rest
    | (st', some e) => (st', some e)

/-- The TTL sweep's drop list: peers whose last announce is more than
`ANNOUNCE_TTL` seconds old. -/
def toDrop (st : NetState) (now : Nat) : List IpAddr :=
  (st.peer_last_announce_time.filter (fun pr => decide (now - pr.2 > ANNOUNCE_TTL))).map Prod.fst

/-- `on_announce_timeout`: inside the self-throttle window it returns without
doing anything.  Otherwise it stamps `last_announce_time := now` first, then
attempts the broadcast — `send_ok` reports whether the `sendto` succeeded;
a network error is swallowed either way — and finally runs the TTL sweep.
The returned `Bool` is whether an announce went out. -/
def on_announce_timeout (st : NetState) (now : Nat) (send_ok : Bool) :
    NetState × Bool × Option PyExn :=
  if now - st.last_announce_time < ANNOUNCE_ALARM then (st, false, none)
  else
    let st := { st with last_announce_time := now }
    let r := dropPeers st (toDrop st now)
    (r.1, send_ok, r.2)

/-! ### `lns_ng/control_proto.py`: length-prefixed JSON framing

`bytes.decode('utf-8')` is embedded concretely as a strict UTF-8 decoder
(rejecting overlong forms, surrogates and code points past `0x10FFFF`, as
CPython does); `json.loads` / `json.dumps` of the standard library are
parameters of the framing functions, supplied as `loads` / `dumps`. -/

/-- Strict UTF-8 decoding of a byte string to its code points; `none` models
the `UnicodeDecodeError` raise (a subclass of `ValueError`). -/
def utf8Decode : List Nat → Option (List Nat)
  | [] => some []
  | b :: rest =>
    if b < 128 then (utf8Decode rest).map (fun t => b :: t)
    else if b < 194 then none
    else if b < 224 then
      match rest with
      | c1 :: r2 =>
        if 128 ≤ c1 && c1 < 192 then
          (utf8Decode r2).map (fun t => ((b - 192) * 64 + (c1 - 128)) :: t)
        else none
      | [] => none
    else if b < 240 then
      match rest with
      | c1 :: c2 :: r2 =>
        let lo1 := if b = 224 then 160 else 128
        let hi1 := if b = 237 then 160 else 192
        if lo1 ≤ c1 && c1 < hi1 && 128 ≤ c2 && c2 < 192 then
          (utf8Decode r2).map (fun t =>
            ((b - 224) * 4096 + (c1 - 128) * 64 + (c2 - 128)) :: t)
        else none
      | _ => none
    else if b < 245 then
      match rest with
      | c1 :: c2 :: c3 :: r2 =>
        let lo1 := if b = 240 then 144 else 128
        let hi1 := if b = 244 then 144 else 192
        if lo1 ≤ c1 && c1 < hi1 && 128 ≤ c2 && c2 < 192 && 128 ≤ c3 && c3 < 192 then
          (utf8Decode r2).map (fun t =>
            ((b - 240) * 262144 + (c1 - 128) * 4096 + (c2 - 128) * 64 + (c3 - 128)) :: t)
        else none
      | _ => none
    else none

/-- Outcome of `get_length_encoded_json`: `EOFError`, a `ValueError`-family
format error, or a parsed JSON value. -/
inductive ReadRes (J : Type) where
  | eof
  | fmtError
  | ok (j : J)
deriving DecidableEq, Repr

/-- `stream.read(n)` on the fixed buffer `buf` at position `pos`: the bytes
delivered, and the new position. -/
def streamReadAt (buf : List Nat) (pos n : Nat) : List Nat × Nat :=
  ((buf.drop pos).take n, min (pos + n) buf.length)

/-- `struct.unpack('H', b)` for a two-byte little-endian buffer. -/
def unpackH (b : List Nat) : Nat :=
  match b with
  | [b0, b1] => b0 + 256 * b1
  | _ => 0

/-- `get_length_encoded_json` over a stream positioned at `pos` in `buf`:
read a two-byte length, read that many payload bytes (`EOFError` when either
read is short), UTF-8-decode and JSON-parse the payload.  Returns the outcome
and the stream's final position. -/
def get_length_encoded_json {J : Type} (loads : List Nat → Option J)
    (buf : List Nat) (pos : Nat) : ReadRes J × Nat :=
  let r1 := streamReadAt buf pos 2
  if r1.1.length ≠ 2 then (ReadRes.eof, r1.2)
  else
    let length := unpackH r1.1
    let r2 := streamReadAt buf r1.2 length
    if r2.1.length ≠ length then (ReadRes.eof, r2.2)
    else
      match utf8Decode r2.1 with
      | none => (ReadRes.fmtError, r2.2)
      | some s =>
        match loads s with
        | none => (ReadRes.fmtError, r2.2)
        | some j => (ReadRes.ok j, r2.2)

/-- `length_encode_json`: `struct.pack('H', len)` raises `struct.error` past
65535 (`none`); otherwise the two length bytes followed by the payload. -/
def length_encode_json {J : Type} (dumps : J → List Nat) (v : J) : Option (List Nat) :=
  let json_bytes := dumps v
  if json_bytes.length > 65535 then none
  else some ((json_bytes.length % 256) :: (json_bytes.length / 256) :: json_bytes)

/-! ### `lns_ng/control_proto.py`: `ProtocolHandler.pull_messages`

The loop keeps only the parent stream's position as state: on `EOFError` the
transaction is aborted and the loop breaks; on a `ValueError` the handler
falls through with `json_message` still `None`, the `with`-block exit calls
`abort` (a no-op), and the loop continues; on success the transaction commits
(contents unchanged, so the commit is exactly the position update — see
`txn_commit_unchanged` below) and the message is dispatched. -/

/-- One loop iteration: `brk` is the `break` out of the loop with the
parent's final position; `cont` carries the parent's position after the
iteration and the message dispatched by it, if any. -/
inductive PullOut (J : Type) where
  | brk (pos : Nat)
  | cont (pos : Nat) (msg : Option J)
deriving DecidableEq, Repr

def pullStep {J : Type} (loads : List Nat → Option J) (buf : List Nat) (pos : Nat) :
    PullOut J :=
  match get_length_encoded_json loads buf pos with
  | (ReadRes.eof, _) => PullOut.brk pos
  | (ReadRes.fmtError, _) => PullOut.cont pos none
  | (ReadRes.ok j, newPos) => PullOut.cont newPos (some j)

/-- The `while True` loop of `pull_messages`, run for at most `fuel`
iterations: `some p` means the loop reached its `break` with the parent
stream at position `p`; `none` means it was still running when the fuel ran
out. -/
def pullRun {J : Type} (loads : List Nat → Option J) (buf : List Nat) :
    Nat → Nat → Option Nat
  | 0, _ => none
  | Nat.succ fuel, pos =>
    match pullStep loads buf pos with
    | PullOut.brk p => some p
    | PullOut.cont p _ => pullRun loads buf fuel p

/-! ### `lns_ng/control_proto.py`: messages and `handle_message` -/

/-- The five control message variants.  `host` is `Host` (JSON type
`"name"`), `ipMsg` is `IP` with its textual addresses as byte strings. -/
inductive CtlMsg where
  | host (hostname : Option HostField)
  | ipMsg (ip_addrs : List IpAddr)
  | getAll
  | nameIpMapping (name_ips : List (HostField × List IpAddr))
  | quit
deriving DecidableEq, Repr

/-- `ProtocolHandler.handle_message` against the announce engine `st`.
Returns the reply sent back, if any; a `Quit` only flips the `done` flag and
replies nothing, a malformed `IP` request (not exactly one address) replies
nothing.  A `Host` query with a null hostname hits the `defaultdict` miss in
`query_host` and yields the empty address list. -/
def handle_message (st : NetState) (message : CtlMsg) : Option CtlMsg :=
  match message with
  | CtlMsg.host hostname =>
    match hostname with
    | some h => some (CtlMsg.ipMsg (query_host st h))
    | none => some (CtlMsg.ipMsg [])
  | CtlMsg.ipMsg ip_addrs =>
    if ip_addrs.length = 1 then
      some (CtlMsg.host (query_ip st (ip_addrs.headD [])))
    else none
  | CtlMsg.getAll =>
    some (CtlMsg.nameIpMapping (get_host_ip_map st))
  | CtlMsg.nameIpMapping _ => none
  | CtlMsg.quit => none

/-! ### `lns_ng/control_proto.py`: `Host.serialize`

`json.dumps({'type': 'name', 'hostname': h})` for this fixed two-key
dictionary, rendered concretely (CPython's default separators and string
escaping over the validated ASCII hostname). -/

def hexDigitByte (n : Nat) : Nat := if n < 10 then 48 + n else 87 + n

/-- `json.dumps` escaping of one code point inside a string literal (the
hostname bytes that reach it are printable ASCII, but the function is total). -/
def jsonEscapeByte (b : Nat) : List Nat :=
  if b = 34 then [92, 34]
  else if b = 92 then [92, 92]
  else if b < 32 then [92, 117, 48, 48, hexDigitByte (b / 16), hexDigitByte (b % 16)]
  else [b]

/-- A JSON string literal: quote, escaped bytes, quote. -/
def jsonStrBytes (s : List Nat) : List Nat :=
  34 :: (s.flatMap jsonEscapeByte) ++ [34]

/-- The UTF-8 bytes of `json.dumps({'type': 'name', 'hostname': h})`:
`-x7b"type": "name", "hostname": <h>-x7d` with `<h>` a string or `null`. -/
def hostJsonBytes (hostname : Option (List Nat)) : List Nat :=
  [123] ++ jsonStrBytes [116, 121, 112, 101] ++ [58, 32]
    ++ jsonStrBytes [110, 97, 109, 101] ++ [44, 32]
    ++ jsonStrBytes [104, 111, 115, 116, 110, 97, 109, 101] ++ [58, 32]
    ++ (match hostname with
        | none => [110, 117, 108, 108]
        | some s => jsonStrBytes s)
    ++ [125]

/-- `Host.serialize`: a non-null hostname is ASCII-encoded and passed through
`verify_hostname` (either raise is `none`); a null hostname skips both and
goes straight to the length-encoded JSON frame. -/
def hostSerialize (hostname : Option HostField) : Option (List Nat) :=
  match hostname with
  | some (HostField.raw _) => none
  | some (HostField.str s) =>
    match pyEncodeAscii s with
    | none => none
    | some bs =>
      match verify_hostname bs with
      | none => none
      | some _ => length_encode_json hostJsonBytes (some s)
  | none => length_encode_json hostJsonBytes none

/-! ### `lns_ng/reactor.py`: event dispatch -/

inductive RxEvent where
  | readable
  | writable
  | error
deriving DecidableEq, Repr

/-- One observable action of a `poll` call: invoking the callback slot of
`(fd, event)` (the no-op default when nothing is bound), or running the step
callback identified by `sid`. -/
inductive DispatchItem where
  | call (fd : Nat) (ev : RxEvent)
  | step (sid : Nat)
deriving DecidableEq, Repr

/-- The flag constants a `PollLikeReactor` is constructed with. -/
structure PollCfg where
  read_flag : Nat
  write_flag : Nat
  err_flags : List Nat
deriving Repr

/-- `_flags_to_event_set`: READABLE / WRITABLE by bit test, ERROR when any
error flag's bit is set (the loop breaks at the first hit). -/
def flags_to_event_set (cfg : PollCfg) (flag : Nat) : List RxEvent :=
  (if flag &&& cfg.read_flag ≠ 0 then [RxEvent.readable] else [])
    ++ (if flag &&& cfg.write_flag ≠ 0 then [RxEvent.writable] else [])
    ++ (if cfg.err_flags.any (fun f => decide (flag &&& f ≠ 0)) then [RxEvent.error] else [])

/-- The dispatches `PollLikeReactor.poll` performs for one `(fd, flag)` pair
returned by the poller: the three membership tests on the event set, in
source order READABLE, WRITABLE, ERROR. -/
def dispatchFd (cfg : PollCfg) (fd flag : Nat) : List DispatchItem :=
  let es := flags_to_event_set cfg flag
  (if RxEvent.readable ∈ es then [DispatchItem.call fd RxEvent.readable] else [])
    ++ (if RxEvent.writable ∈ es then [DispatchItem.call fd RxEvent.writable] else [])
    ++ (if RxEvent.error ∈ es then [DispatchItem.call fd RxEvent.error] else [])

/-- The action trace of `PollLikeReactor.poll`: the event loop over the
poller's `(fd, flag)` list, then `run_step_callbacks` over the registered
step callbacks. -/
def pollTrace (cfg : PollCfg) : List (Nat × Nat) → List Nat → List DispatchItem
  | [], steps => steps.map DispatchItem.step
  | (fd, flag) :: rest, steps => dispatchFd cfg fd flag ++ pollTrace cfg rest steps

/-- The action trace of `SelectReactor.poll`: with no clients, only the step
callbacks run (after the plain sleep); otherwise all ready readers, then all
ready writers, then all ready error fds, then the step callbacks. -/
def selectPollTrace (has_clients : Bool) (rlist wlist xlist : List Nat)
    (steps : List Nat) : List DispatchItem :=
  if has_clients then
    rlist.map (fun fd => DispatchItem.call fd RxEvent.readable)
      ++ wlist.map (fun fd => DispatchItem.call fd RxEvent.writable)
      ++ xlist.map (fun fd => DispatchItem.call fd RxEvent.error)
      ++ steps.map DispatchItem.step
  else steps.map DispatchItem.step

/-! ### Invariants of the announce engine state -/

/-- The peer-map coherence invariant: every forward entry `(ip, name)` in
`ip_to_host` has `ip` in the reverse set `host_to_ips[name]`. -/
def PeerMapInv (st : NetState) : Prop :=
  ∀ ip name, alookup st.ip_to_host ip = some name → ip ∈ dgetD st.host_to_ips name []

/-- Executable form of `PeerMapInv`, quantifying over the stored entries. -/
def peerMapInvCheck (st : NetState) : Bool :=
  st.ip_to_host.all (fun p => decide (p.1 ∈ dgetD st.host_to_ips p.2 []))

/-- Key-set side conditions the engine maintains: the timestamp keys carry no
duplicates, and every timestamped peer has a forward entry and a buffer. -/
def peerKeysInvCheck (st : NetState) : Bool :=
  decide (akeys st.peer_last_announce_time).Nodup &&
    st.peer_last_announce_time.all (fun p =>
      (alookup st.ip_to_host p.1).isSome && (alookup st.peer_buffers p.1).isSome)

/-- Whether a dispatch item is a callback invocation on the descriptor `fd`. -/
def isCallTo (fd : Nat) : DispatchItem → Bool
  | DispatchItem.call fd2 _ => fd2 == fd
  | DispatchItem.step _ => false

/-! ## Helper lemmas -/

theorem alookup_cons {κ α : Type} [DecidableEq κ] (a : κ × α) (m : List (κ × α)) (k : κ) :
    alookup (a :: m) k = if a.1 = k then some a.2 else alookup m k := by
  by_cases h : a.1 = k <;> simp [alookup, List.find?_cons, h]

theorem alookup_setmap {κ α : Type} [DecidableEq κ] (m : List (κ × α)) (k k' : κ) (v : α) :
    alookup (m.map (fun p => if p.1 = k then (k, v) else p)) k'
      = if k = k' then ((alookup m k).map (fun _ => v)) else alookup m k' := by
  induction m with
  | nil => by_cases h : k = k' <;> simp [alookup, h]
  | cons a t ih =>
    by_cases h1 : a.1 = k
    · by_cases h2 : k = k' <;>
        simp [List.map_cons, alookup_cons, h1, h2, ih]
    · by_cases h2 : a.1 = k'
      · have hkk : ¬ k = k' := fun he => h1 (he ▸ h2)
        have hk'k : ¬ k' = k := fun he => hkk he.symm
        simp [List.map_cons, alookup_cons, h1, h2, hkk, hk'k]
      · simp [List.map_cons, alookup_cons, h1, h2, ih]

theorem alookup_append {κ α : Type} [DecidableEq κ] (m1 m2 : List (κ × α)) (k : κ) :
    alookup (m1 ++ m2) k =
      match alookup m1 k with
      | some v => some v
      | none => alookup m2 k := by
  induction m1 with
  | nil => simp [alookup]
  | cons a t ih =>
    by_cases h : a.1 = k <;> simp [List.cons_append, alookup_cons, h, ih]

theorem alookup_aset {κ α : Type} [DecidableEq κ] (m : List (κ × α)) (k k' : κ) (v : α) :
    alookup (aset m k v) k' = if k = k' then some v else alookup m k' := by
  unfold aset
  cases h : alookup m k with
  | some w => simp [alookup_setmap, h]
  | none =>
    rw [alookup_append]
    by_cases h2 : k = k'
    · subst h2; simp [h, alookup_cons]
    · cases h3 : alookup m k' <;> simp [h2, h3, alookup_cons, alookup]

theorem adel_cons {κ α : Type} [DecidableEq κ] (a : κ × α) (t : List (κ × α)) (k : κ) :
    adel (a :: t) k = if a.1 = k then adel t k else a :: adel t k := by
  by_cases h : a.1 = k <;> simp [adel, List.filter_cons, h]

theorem alookup_adel {κ α : Type} [DecidableEq κ] (m : List (κ × α)) (k k' : κ) :
    alookup (adel m k) k' = if k = k' then none else alookup m k' := by
  induction m with
  | nil => by_cases h : k = k' <;> simp [alookup, adel, h]
  | cons a t ih =>
    rw [adel_cons]
    by_cases h1 : a.1 = k
    · by_cases h2 : k = k'
      · subst h2; simpa [h1] using ih
      · have h3 : ¬ a.1 = k' := fun he => h2 (h1 ▸ he)
        simp [h1, h2, ih, h3, alookup_cons]
    · by_cases h2 : a.1 = k'
      · have h4 : ¬ k' = k := fun he => h1 (h2.trans he)
        have h5 : ¬ k = k' := fun he => h4 he.symm
        simp [h1, h2, h4, h5, ih, alookup_cons]
      · simp [h1, h2, ih, alookup_cons]

theorem mem_sadd {α : Type} [DecidableEq α] (s : List α) (x y : α) :
    y ∈ sadd s x ↔ y ∈ s ∨ y = x := by
  unfold sadd
  by_cases h : x ∈ s
  · simp only [h, if_true]
    constructor
    · exact Or.inl
    · rintro (hy | rfl) <;> [exact hy; exact h]
  · simp [h]

theorem sremove_of_mem {α : Type} [DecidableEq α] {s : List α} {x : α} (h : x ∈ s) :
    sremove s x = some (s.filter (fun y => decide (y ≠ x))) := by
  simp [sremove, h]

theorem mem_filter_ne {α : Type} [DecidableEq α] (s : List α) (x y : α) :
    y ∈ s.filter (fun z => decide (z ≠ x)) ↔ y ∈ s ∧ y ≠ x := by
  simp [List.mem_filter]

theorem dgetD_aset_self {κ α : Type} [DecidableEq κ] (m : List (κ × α)) (k : κ) (v : α) (d : α) :
    dgetD (aset m k v) k d = v := by
  simp [dgetD, alookup_aset]

theorem dgetD_aset_ne {κ α : Type} [DecidableEq κ] (m : List (κ × α)) {k k' : κ} (v : α)
    (d : α) (h : ¬ k = k') : dgetD (aset m k v) k' d = dgetD m k' d := by
  simp [dgetD, alookup_aset, h]

/-- A commit that finds the contents unchanged performs only the position
update (the spec's "commit with unchanged contents only moves the cursor"). -/
theorem txn_commit_unchanged (parent stream : ByteStream)
    (h : parent.getvalue = stream.getvalue) :
    txnCommit parent stream = parent.seekTo stream.tell := by
  simp [txnCommit, h]

theorem txnCommit_getvalue (parent stream : ByteStream) :
    (txnCommit parent stream).getvalue = stream.getvalue := by
  unfold txnCommit
  by_cases h : parent.data = stream.data
  · simp [ByteStream.getvalue, ByteStream.seekTo, h]
  · simp [ByteStream.getvalue, ByteStream.seekTo, h,
      ByteStream.write, ByteStream.truncate0]

theorem txnCommit_tell (parent stream : ByteStream) :
    (txnCommit parent stream).tell = stream.tell := by
  unfold txnCommit
  by_cases h : parent.data = stream.data <;>
    simp [ByteStream.getvalue, h, ByteStream.seekTo, ByteStream.tell,
      ByteStream.write, ByteStream.truncate0]

/-! ## Claim theorems -/

/-- Claim C6 (confirmed): for any sequence of reads, writes and seeks on a
transaction's private stream, aborting leaves the parent's contents and
position exactly as they were when the transaction was created; committing
makes the parent's contents and position equal the transaction stream's; and
when the contents are unchanged the commit is exactly the position update. -/
theorem transactional_stream_spec (parent : ByteStream) (ops : List StreamOp) :
    txnAbort parent = parent ∧
    (txnCommit parent ((mkTransaction parent).stream.applyOps ops)).getvalue
        = ((mkTransaction parent).stream.applyOps ops).getvalue ∧
    (txnCommit parent ((mkTransaction parent).stream.applyOps ops)).tell
        = ((mkTransaction parent).stream.applyOps ops).tell ∧
    (parent.getvalue = ((mkTransaction parent).stream.applyOps ops).getvalue →
      txnCommit parent ((mkTransaction parent).stream.applyOps ops)
        = parent.seekTo ((mkTransaction parent).stream.applyOps ops).tell) :=
  ⟨rfl, txnCommit_getvalue _ _, txnCommit_tell _ _,
    fun h => txn_commit_unchanged _ _ h⟩

/-- Witness for C6 at a concrete parent and operation sequence whose reads
and seeks leave the contents unchanged. -/
theorem transactional_stream_spec_witness :
    (ByteStream.getvalue ⟨[5, 6, 7], 1⟩
        = ((mkTransaction ⟨[5, 6, 7], 1⟩).stream.applyOps [StreamOp.sk 0, StreamOp.rd 2]).getvalue) ∧
    txnCommit ⟨[5, 6, 7], 1⟩ ((mkTransaction ⟨[5, 6, 7], 1⟩).stream.applyOps [StreamOp.sk 0, StreamOp.rd 2])
      = ByteStream.seekTo ⟨[5, 6, 7], 1⟩
          ((mkTransaction ⟨[5, 6, 7], 1⟩).stream.applyOps [StreamOp.sk 0, StreamOp.rd 2]).tell :=
  ⟨by decide,
    (transactional_stream_spec ⟨[5, 6, 7], 1⟩ [StreamOp.sk 0, StreamOp.rd 2]).2.2.2 (by decide)⟩

/-- Claim C2 (corrected, counterexample): `verify_hostname` accepts the
single space byte 32, which the claim says lies outside the accepted range
`[33, 126]` and must be rejected. -/
theorem verify_hostname_space_accepted :
    verify_hostname [32] = some [32] ∧ ¬ (33 ≤ 32 ∧ 32 ≤ 126) := by decide

/-- Claim C2 (corrected): `verify_hostname` accepts a byte string exactly
when it is non-empty, at most 511 bytes long, and every byte lies in the
inclusive range `[32, 126]`; space (32) is accepted, DEL (127) is rejected,
and so are the empty hostname and hostnames longer than 511 bytes. -/
theorem verify_hostname_spec (b : List Nat) :
    (verify_hostname b).isSome = true ↔
      (b ≠ [] ∧ b.length ≤ 511 ∧ ∀ x ∈ b, 32 ≤ x ∧ x ≤ 126) := by
  have key : (verify_hostname b).isSome = true ↔
      ((b.isEmpty || decide (b.length > 512 - 1)) = false ∧
       (b.any fun byte => decide (byte < 32) || decide (byte > 126)) = false) := by
    unfold verify_hostname
    simp only [PACKET_SIZE]
    by_cases hA : (b.isEmpty || decide (b.length > 512 - 1)) = true
    · simp [hA]
    · by_cases hB : (b.any fun byte => decide (byte < 32) || decide (byte > 126)) = true
      · simp [hA, hB]
      · simp [hA, hB]
  rw [key]
  simp only [Bool.or_eq_false_iff, decide_eq_false_iff_not,
    List.any_eq_false, Bool.or_eq_true, decide_eq_true_eq, not_or]
  have hie : b.isEmpty = false ↔ b ≠ [] := by
    cases b <;> simp
  rw [hie]
  constructor
  · rintro ⟨⟨hne, hlen⟩, hbytes⟩
    refine ⟨hne, by omega, fun x hx => ?_⟩
    have := hbytes x hx
    omega
  · rintro ⟨hne, hlen, hall⟩
    refine ⟨⟨hne, by omega⟩, fun x hx => ?_⟩
    have := hall x hx
    omega

theorem findNul_append_of_no_nul (h : List Nat) (t : List Nat)
    (hh : ∀ x ∈ h, x ≠ 0) : findNul (h ++ 0 :: t) = some h.length := by
  induction h with
  | nil => simp [findNul]
  | cons a h' ih =>
    have ha : a ≠ 0 := hh a (by simp)
    have ih' := ih (fun x hx => hh x (by simp [hx]))
    simp [findNul, ha, ih']

theorem verify_hostname_of_valid (b : List Nat) (h1 : b ≠ []) (h2 : b.length ≤ 511)
    (h3 : ∀ x ∈ b, 32 ≤ x ∧ x ≤ 126) : verify_hostname b = some b := by
  unfold verify_hostname
  have h5 : b.isEmpty = false := by cases b <;> simp_all
  have h6 : decide (b.length > PACKET_SIZE - 1) = false := by
    simp only [PACKET_SIZE, decide_eq_false_iff_not]
    omega
  have hB : (b.any fun byte => decide (byte < 32) || decide (byte > 126)) = false := by
    simp only [List.any_eq_false]
    intro x hx
    have := h3 x hx
    simp only [Bool.or_eq_true, decide_eq_true_eq]
    omega
  simp [h5, h6, hB]

set_option maxRecDepth 100000 in
/-- Claim C3 (corrected, counterexample): for the valid 511-byte hostname
`'a' * 511` the serialized frame has no NUL padding, so `unserialize` takes
the no-NUL branch and returns the raw undecoded tail bytes instead of the
decoded string — the round trip does not restore the message and the decoded
hostname field is a `bytes` object. -/
theorem announce_roundtrip_fails_at_511 :
    (Announce.serialize ⟨HostField.str (List.replicate 511 97)⟩).bind Announce.unserialize
        = some ⟨HostField.raw (List.replicate 511 97)⟩ ∧
      HostField.raw (List.replicate 511 97) ≠ HostField.str (List.replicate 511 97) := by
  decide

/-- Claim C3 (corrected): for every valid hostname of at most **510** bytes
(non-empty, printable ASCII), `unserialize (serialize (Announce h))`
returns `Announce h` with the hostname decoded to a string; at exactly 511
bytes the round trip instead yields the raw bytes. -/
theorem announce_roundtrip (h : List Nat) (hne : h ≠ []) (hlen : h.length ≤ 510)
    (hbytes : ∀ x ∈ h, 33 ≤ x ∧ x ≤ 126) :
    (Announce.serialize ⟨HostField.str h⟩).bind Announce.unserialize
      = some ⟨HostField.str h⟩ := by
  have henc : pyEncodeAscii h = some h := by
    unfold pyEncodeAscii
    have : h.all (fun c => decide (c < 128)) = true := by
      simp only [List.all_eq_true, decide_eq_true_eq]
      intro x hx
      have := hbytes x hx
      omega
    simp [this]
  have hser : Announce.serialize ⟨HostField.str h⟩
      = some (1 :: (h ++ List.replicate (511 - h.length) 0)) := by
    have hdef : Announce.serialize ⟨HostField.str h⟩ =
        (match pyEncodeAscii h with
         | none => none
         | some raw_hostname =>
           if raw_hostname.length > PACKET_SIZE - 1 then none
           else some (1 :: (raw_hostname
             ++ List.replicate (PACKET_SIZE - 1 - raw_hostname.length) 0))) := rfl
    rw [hdef]
    simp only [henc, PACKET_SIZE]
    have hlt : ¬ h.length > 512 - 1 := by omega
    rw [if_neg hlt]
  rw [hser]
  have hrep : List.replicate (511 - h.length) (0 : Nat)
      = 0 :: List.replicate (510 - h.length) 0 := by
    have h9 : 511 - h.length = (510 - h.length) + 1 := by omega
    rw [h9, List.replicate_succ]
  have hlen512 : (1 :: (h ++ List.replicate (511 - h.length) 0)).length = 512 := by
    simp [List.length_replicate]
    omega
  have hfind : findNul (h ++ List.replicate (511 - h.length) 0) = some h.length := by
    rw [hrep]
    exact findNul_append_of_no_nul h _ (fun x hx => by have := hbytes x hx; omega)
  have htake : (h ++ List.replicate (511 - h.length) 0).take h.length = h :=
    List.take_left h (List.replicate (511 - h.length) 0)
  have hver : verify_hostname h = some h :=
    verify_hostname_of_valid h hne (by omega)
      (fun x hx => by have := hbytes x hx; omega)
  unfold Announce.unserialize
  simp only [Option.bind_some, hlen512, PACKET_SIZE]
  simp [hfind, htake, hver]
  all_goals omega

/-- Witness for C3 at the one-byte hostname `[97]`. -/
theorem announce_roundtrip_witness :
    (([97] : List Nat) ≠ [] ∧ ([97] : List Nat).length ≤ 510 ∧
        ∀ x ∈ ([97] : List Nat), 33 ≤ x ∧ x ≤ 126) ∧
      (Announce.serialize ⟨HostField.str [97]⟩).bind Announce.unserialize
        = some ⟨HostField.str [97]⟩ :=
  ⟨⟨by decide, by decide, by decide⟩,
    announce_roundtrip [97] (by decide) (by decide) (by decide)⟩

/-- Claim C1 (code bug): on a buffer holding one complete frame whose
payload is not valid UTF-8 (here the 3-byte frame `01 00 ff`: length 1,
payload `0xff`), the `ValueError` branch of `pull_messages` neither commits
nor otherwise advances the parent stream — the iteration ends as `cont` at
the *unchanged* position 0 — so the `while True` loop re-reads the same
frame forever: no fuel ever reaches the loop's `break`. -/
theorem pull_messages_format_error_stuck (J : Type) (loads : List Nat → Option J) :
    pullStep loads [1, 0, 255] 0 = PullOut.cont 0 none ∧
      ∀ fuel, pullRun loads [1, 0, 255] fuel 0 = none := by
  refine ⟨rfl, fun fuel => ?_⟩
  induction fuel with
  | zero => rfl
  | succ n ih => simpa [pullRun] using ih

theorem get_length_encoded_json_frame {J : Type} (loads : List Nat → Option J)
    (a b : Nat) (d : List Nat) (j : J) (hab : a + 256 * b = d.length)
    (hde : (utf8Decode d).bind loads = some j) :
    get_length_encoded_json loads (a :: b :: d) 0 = (ReadRes.ok j, 2 + d.length) := by
  have e1 : streamReadAt (a :: b :: d) 0 2 = ([a, b], 2) := by
    unfold streamReadAt
    rw [show ((a :: b :: d).drop 0).take 2 = [a, b] from rfl]
    have h2 : (0 + 2) ⊓ (a :: b :: d).length = 2 := by
      simp [List.length_cons]
    rw [h2]
  have e2 : streamReadAt (a :: b :: d) 2 d.length = (d, 2 + d.length) := by
    unfold streamReadAt
    have h3 : min (2 + d.length) ((a :: b :: d).length) = 2 + d.length := by simp; omega
    rw [show ((a :: b :: d).drop 2) = d from rfl, List.take_length, h3]
  have e3 : unpackH [a, b] = d.length := by
    show a + 256 * b = d.length
    exact hab
  simp only [get_length_encoded_json, e1, e3, e2]
  norm_num
  cases hu : utf8Decode d with
  | none => rw [hu] at hde; simp at hde
  | some s =>
    rw [hu] at hde
    simp only [Option.some_bind] at hde
    simp [hde]

/-- Claim C10 (confirmed): a JSON payload longer than 65535 bytes makes
`length_encode_json` fail (`struct.pack('H', ...)` raises), and for a payload
of at most 65535 bytes, `get_length_encoded_json` over the produced frame
returns the original value, having consumed exactly the whole frame.  The
standard library's `json.dumps` / `json.loads` pair enters as the `dumps` /
`loads` parameters together with the round-trip property it provides. -/
theorem length_encoded_json_roundtrip (J : Type) (dumps : J → List Nat)
    (loads : List Nat → Option J) (v : J)
    (hjson : ∀ w, (utf8Decode (dumps w)).bind loads = some w) :
    ((dumps v).length > 65535 → length_encode_json dumps v = none) ∧
    ((dumps v).length ≤ 65535 →
      length_encode_json dumps v
          = some (((dumps v).length % 256) :: ((dumps v).length / 256) :: dumps v) ∧
      get_length_encoded_json loads
          (((dumps v).length % 256) :: ((dumps v).length / 256) :: dumps v) 0
        = (ReadRes.ok v, 2 + (dumps v).length)) := by
  constructor
  · intro hbig
    simp [length_encode_json, hbig]
  · intro hsmall
    have hlt : ¬ (dumps v).length > 65535 := by omega
    refine ⟨by simp [length_encode_json, hlt], ?_⟩
    exact get_length_encoded_json_frame loads ((dumps v).length % 256)
      ((dumps v).length / 256) (dumps v) v (by omega) (hjson v)

/-- Witness for C10 with a one-value JSON universe whose `dumps` emits the
single byte `'0'` and whose `loads` inverts it. -/
theorem length_encoded_json_roundtrip_witness :
    (([48] : List Nat).length ≤ 65535) ∧
      (length_encode_json (fun (_ : Unit) => ([48] : List Nat)) ()
          = some ((([48] : List Nat).length % 256)
              :: (([48] : List Nat).length / 256) :: [48]) ∧
        get_length_encoded_json (fun s => if s = [48] then some () else none)
            ((([48] : List Nat).length % 256)
              :: (([48] : List Nat).length / 256) :: [48]) 0
          = (ReadRes.ok (), 2 + ([48] : List Nat).length)) :=
  ⟨by decide,
    (length_encoded_json_roundtrip Unit (fun _ => [48])
        (fun s => if s = [48] then some () else none) ()
        (fun w => by cases w; decide)).2 (by decide)⟩

theorem dropPeer_last_announce_time (st : NetState) (p : IpAddr) :
    (dropPeer st p).1.last_announce_time = st.last_announce_time := by
  unfold dropPeer
  dsimp only
  repeat' split
  all_goals rfl

theorem dropPeers_last_announce_time (l : List IpAddr) :
    ∀ st : NetState, (dropPeers st l).1.last_announce_time = st.last_announce_time := by
  induction l with
  | nil => intro st; rfl
  | cons p rest ih =>
    intro st
    show (match dropPeer st p with
          | (st', none) => dropPeers st' rest
          | (st', some e) => (st', some e)).1.last_announce_time = st.last_announce_time
    rcases hd : dropPeer st p with ⟨st', e⟩
    have hlast : st'.last_announce_time = st.last_announce_time := by
      have := dropPeer_last_announce_time st p
      rw [hd] at this
      exact this
    cases e with
    | none => simpa [ih st'] using hlast
    | some ex => simpa using hlast

/-- Claim C9 (confirmed): inside the `ANNOUNCE_ALARM` window
`on_announce_timeout` returns with nothing sent and nothing changed; outside
it, `last_announce_time` is set to `now` before the broadcast is attempted,
so it holds the new value whether or not the `sendto` raised (the network
error is swallowed either way). -/
theorem announce_throttle_spec (st : NetState) (now : Nat) (send_ok : Bool) :
    (now - st.last_announce_time < ANNOUNCE_ALARM →
      on_announce_timeout st now send_ok = (st, false, none)) ∧
    (ANNOUNCE_ALARM ≤ now - st.last_announce_time →
      (on_announce_timeout st now send_ok).1.last_announce_time = now) := by
  constructor
  · intro hlt
    simp [on_announce_timeout, hlt]
  · intro hge
    have hnlt : ¬ (now - st.last_announce_time < ANNOUNCE_ALARM) := by omega
    unfold on_announce_timeout
    rw [if_neg hnlt]
    exact dropPeers_last_announce_time _ _

/-- Witness for C9: with `last_announce_time = 0`, a call at `now = 5` is
throttled and a call at `now = 100` stamps the time, for both send outcomes. -/
theorem announce_throttle_spec_witness :
    on_announce_timeout ⟨0, [], [], [], []⟩ 5 true = (⟨0, [], [], [], []⟩, false, none) ∧
      (on_announce_timeout ⟨0, [], [], [], []⟩ 100 false).1.last_announce_time = 100 :=
  ⟨(announce_throttle_spec ⟨0, [], [], [], []⟩ 5 true).1 (by decide),
    (announce_throttle_spec ⟨0, [], [], [], []⟩ 100 false).2 (by decide)⟩

/-- Claim C8 (confirmed): an `IP` request with exactly one address is
answered by a `Host` reply carrying `query_ip` of that address — null when
the address is absent from the peer map — while an `IP` request with any
other number of addresses produces no reply; and serializing a `Host` whose
hostname is null skips hostname validation and succeeds. -/
theorem control_ip_request_spec (st : NetState) (addrs : List IpAddr) (a : IpAddr) :
    (addrs.length = 1 → handle_message st (CtlMsg.ipMsg addrs)
        = some (CtlMsg.host (query_ip st (addrs.headD [])))) ∧
    (addrs.length ≠ 1 → handle_message st (CtlMsg.ipMsg addrs) = none) ∧
    (alookup st.ip_to_host a = none →
      handle_message st (CtlMsg.ipMsg [a]) = some (CtlMsg.host none)) ∧
    (hostSerialize none).isSome = true := by
  refine ⟨fun h1 => ?_, fun h2 => ?_, fun h3 => ?_, by decide⟩
  · simp [handle_message, h1]
  · simp [handle_message, h2]
  · simp [handle_message, query_ip, h3]

/-- Witness for C8: over the empty peer map, a malformed `IP` request gets
no reply and a singleton `IP` request gets a null-hostname `Host` reply. -/
theorem control_ip_request_spec_witness :
    handle_message ⟨0, [], [], [], []⟩ (CtlMsg.ipMsg []) = none ∧
      handle_message ⟨0, [], [], [], []⟩ (CtlMsg.ipMsg [[48]])
        = some (CtlMsg.host none) :=
  ⟨(control_ip_request_spec ⟨0, [], [], [], []⟩ [] [48]).2.1 (by decide),
    (control_ip_request_spec ⟨0, [], [], [], []⟩ [[48]] [48]).2.2.1 (by decide)⟩

set_option maxRecDepth 1000000 in
/-- Claim C4 (corrected, counterexample): the 512-byte payload
`01 00 00 ... 00` has the correct Announce header but an empty hostname, so
`Announce.unserialize` raises `ValueError`, which propagates out of the
receive path (`on_message` / `handle_messages`) instead of being silently
dropped; the peer map and the last-announce timestamp are left unmodified. -/
theorem announce_receive_raises_on_bad_hostname :
    (on_message ⟨0, [], [], [], []⟩ [55] (1 :: List.replicate 511 0) 100).2
        = some PyExn.valueError ∧
      (on_message ⟨0, [], [], [], []⟩ [55] (1 :: List.replicate 511 0) 100).1.ip_to_host = [] ∧
      (on_message ⟨0, [], [], [], []⟩ [55]
          (1 :: List.replicate 511 0) 100).1.peer_last_announce_time = [] := by
  refine ⟨by decide, by decide, by decide⟩

theorem handleLoopF_fuel (host : IpAddr) (now : Nat) :
    ∀ (f1 : Nat) (f2 : Nat) (st : NetState) (buf : List Nat),
      buf.length < f1 * PACKET_SIZE → buf.length < f2 * PACKET_SIZE →
      handleLoopF host now f1 st buf = handleLoopF host now f2 st buf := by
  intro f1
  induction f1 with
  | zero => intro f2 st buf h1 h2; omega
  | succ g1 ih =>
    intro f2 st buf h1 h2
    cases f2 with
    | zero => omega
    | succ g2 =>
      have hcond : ((buf.take PACKET_SIZE).length < PACKET_SIZE) ↔ (buf.length < PACKET_SIZE) := by
        rw [List.length_take]
        omega
      by_cases hshort : buf.length < PACKET_SIZE
      · simp only [handleLoopF]
        rw [if_pos (hcond.mpr hshort), if_pos (hcond.mpr hshort)]
      · simp only [handleLoopF]
        rw [if_neg (fun hc => hshort (hcond.mp hc)),
          if_neg (fun hc => hshort (hcond.mp hc))]
        rcases hp : processPacket st host (buf.take PACKET_SIZE) now with ⟨st', e⟩
        cases e with
        | some ex => simp [hp]
        | none =>
          simp only [hp]
          apply ih
          · rw [List.length_drop]
            simp only [PACKET_SIZE] at *
            omega
          · rw [List.length_drop]
            simp only [PACKET_SIZE] at *
            omega

/-- Claim C4 (corrected): a full 512-byte payload whose header byte is not
`0x01` is silently skipped — the loop continues on the remaining buffer with
the engine state untouched — but a payload with the correct header whose
hostname fails validation makes the iteration return the `ValueError`
unhandled (state still untouched), rather than being dropped. -/
theorem announce_receive_spec (st : NetState) (host : IpAddr) (now fuel : Nat)
    (packet rest : List Nat) :
    (packet.length = PACKET_SIZE → Announce.parses packet = false →
      handleLoopF host now (fuel + 1) st (packet ++ rest)
        = handleLoopF host now fuel st rest) ∧
    (packet.length = PACKET_SIZE → Announce.parses packet = true →
      Announce.unserialize packet = none →
      handleLoopF host now (fuel + 1) st (packet ++ rest)
        = (st, packet ++ rest, some PyExn.valueError)) := by
  have htake : (packet ++ rest).take packet.length = packet := List.take_left packet rest
  have hdrop : (packet ++ rest).drop packet.length = rest := List.drop_left packet rest
  constructor
  · intro hlen hpar
    rw [hlen] at htake hdrop
    simp only [handleLoopF, htake, hdrop, hlen, lt_irrefl, if_false]
    simp [processPacket, hpar]
  · intro hlen hpar hunser
    rw [hlen] at htake hdrop
    simp only [handleLoopF, htake, hdrop, hlen, lt_irrefl, if_false]
    simp [processPacket, hpar, hunser]

set_option maxRecDepth 1000000 in
/-- Witness for C4: a wrong-header packet is skipped with the state intact,
and a correct-header empty-hostname packet surfaces the `ValueError`. -/
theorem announce_receive_spec_witness :
    handleLoopF [55] 100 1 ⟨0, [], [], [], []⟩ ((2 :: List.replicate 511 0) ++ [])
        = handleLoopF [55] 100 0 ⟨0, [], [], [], []⟩ [] ∧
      handleLoopF [55] 100 1 ⟨0, [], [], [], []⟩ ((1 :: List.replicate 511 0) ++ [])
        = (⟨0, [], [], [], []⟩, (1 :: List.replicate 511 0) ++ [], some PyExn.valueError) :=
  ⟨(announce_receive_spec ⟨0, [], [], [], []⟩ [55] 100 0
        (2 :: List.replicate 511 0) []).1 (by decide) (by decide),
    (announce_receive_spec ⟨0, [], [], [], []⟩ [55] 100 0
        (1 :: List.replicate 511 0) []).2 (by decide) (by decide) (by decide)⟩

theorem peerMapInvCheck_sound (st : NetState) (h : peerMapInvCheck st = true) :
    PeerMapInv st := by
  intro ip name hl
  unfold alookup at hl
  cases hfind : st.ip_to_host.find? (fun p => decide (p.1 = ip)) with
  | none => rw [hfind] at hl; simp at hl
  | some pr =>
    rw [hfind] at hl
    simp at hl
    have hmem : pr ∈ st.ip_to_host := List.mem_of_find?_eq_some hfind
    have hkey : pr.1 = ip := by
      have := List.find?_some hfind
      simpa using this
    have hall := List.all_eq_true.mp h pr hmem
    simp only [decide_eq_true_eq] at hall
    rw [hkey, hl] at hall
    exact hall

theorem peerKeysInvCheck_sound (st : NetState) (h : peerKeysInvCheck st = true) :
    (akeys st.peer_last_announce_time).Nodup ∧
      ∀ p, (alookup st.peer_last_announce_time p).isSome = true →
        (alookup st.ip_to_host p).isSome = true ∧
          (alookup st.peer_buffers p).isSome = true := by
  unfold peerKeysInvCheck at h
  rw [Bool.and_eq_true] at h
  refine ⟨of_decide_eq_true h.1, fun p hp => ?_⟩
  unfold alookup at hp
  cases hfind : st.peer_last_announce_time.find? (fun q => decide (q.1 = p)) with
  | none => rw [hfind] at hp; simp at hp
  | some pr =>
    have hmem : pr ∈ st.peer_last_announce_time := List.mem_of_find?_eq_some hfind
    have hkey : pr.1 = p := by
      have := List.find?_some hfind
      simpa using this
    have hall := List.all_eq_true.mp h.2 pr hmem
    rw [Bool.and_eq_true] at hall
    rw [hkey] at hall
    exact hall

theorem recordAnnounce_inv (st : NetState) (host : IpAddr) (name : HostField) (now : Nat)
    (hinv : PeerMapInv st) :
    PeerMapInv (recordAnnounce st host name now).1 ∧
      (recordAnnounce st host name now).2 = none := by
  unfold recordAnnounce
  dsimp only
  cases halook : alookup st.ip_to_host host with
  | none =>
    simp only [halook]
    refine ⟨?_, by trivial⟩
    intro ip nm hl
    dsimp only at hl ⊢
    rw [alookup_aset] at hl
    by_cases hip : host = ip
    · rw [if_pos hip] at hl
      have hnm : name = nm := Option.some.inj hl
      subst hnm
      rw [dgetD_aset_self]
      exact (mem_sadd _ _ _).mpr (Or.inr hip.symm)
    · rw [if_neg hip] at hl
      have hm := hinv ip nm hl
      by_cases hnm : name = nm
      · subst hnm
        rw [dgetD_aset_self]
        exact (mem_sadd _ _ _).mpr (Or.inl hm)
      · rw [dgetD_aset_ne _ _ _ hnm]
        exact hm
  | some old =>
    simp only [halook]
    have hmem : host ∈ dgetD st.host_to_ips old [] := hinv host old halook
    rw [sremove_of_mem hmem]
    dsimp only
    refine ⟨?_, by trivial⟩
    have key : ∀ q nm2, q ∈ dgetD st.host_to_ips nm2 [] → q ≠ host →
        q ∈ dgetD (aset (aset st.host_to_ips old (dgetD st.host_to_ips old []))
          old ((dgetD st.host_to_ips old []).filter (fun y => decide (y ≠ host)))) nm2 [] := by
      intro q nm2 hq hne
      by_cases h3 : old = nm2
      · subst h3
        rw [dgetD_aset_self]
        exact (mem_filter_ne _ _ _).mpr ⟨hq, hne⟩
      · rw [dgetD_aset_ne _ _ _ h3, dgetD_aset_ne _ _ _ h3]
        exact hq
    intro ip nm hl
    dsimp only at hl ⊢
    rw [alookup_aset] at hl
    by_cases hip : host = ip
    · rw [if_pos hip] at hl
      have hnm : name = nm := Option.some.inj hl
      subst hnm
      rw [dgetD_aset_self]
      exact (mem_sadd _ _ _).mpr (Or.inr hip.symm)
    · rw [if_neg hip] at hl
      have hm := hinv ip nm hl
      have hne : ip ≠ host := fun he => hip he.symm
      by_cases hnm : name = nm
      · subst hnm
        rw [dgetD_aset_self]
        exact (mem_sadd _ _ _).mpr (Or.inl (key ip name hm hne))
      · rw [dgetD_aset_ne _ _ _ hnm]
        exact key ip nm hm hne

theorem processPacket_inv (st : NetState) (host : IpAddr) (packet : List Nat) (now : Nat)
    (hinv : PeerMapInv st) : PeerMapInv (processPacket st host packet now).1 := by
  by_cases hp : Announce.parses packet = false
  · simp only [processPacket, if_pos hp]
    exact hinv
  · simp only [processPacket, if_neg hp]
    cases hu : Announce.unserialize packet with
    | none => exact hinv
    | some msg => exact (recordAnnounce_inv st host msg.hostname now hinv).1

theorem dropPeer_spec (st : NetState) (p : IpAddr) (hinv : PeerMapInv st)
    (h1 : (alookup st.peer_last_announce_time p).isSome = true)
    (h2 : (alookup st.ip_to_host p).isSome = true)
    (h3 : (alookup st.peer_buffers p).isSome = true) :
    (dropPeer st p).2 = none ∧
    PeerMapInv (dropPeer st p).1 ∧
    alookup (dropPeer st p).1.peer_last_announce_time p = none ∧
    alookup (dropPeer st p).1.peer_buffers p = none ∧
    alookup (dropPeer st p).1.ip_to_host p = none ∧
    (∀ name, alookup st.ip_to_host p = some name →
      p ∉ dgetD (dropPeer st p).1.host_to_ips name []) ∧
    (∀ q, q ≠ p →
      alookup (dropPeer st p).1.peer_last_announce_time q
          = alookup st.peer_last_announce_time q ∧
      alookup (dropPeer st p).1.peer_buffers q = alookup st.peer_buffers q ∧
      alookup (dropPeer st p).1.ip_to_host q = alookup st.ip_to_host q) ∧
    (∀ q nm, q ∉ dgetD st.host_to_ips nm [] →
      q ∉ dgetD (dropPeer st p).1.host_to_ips nm []) := by
  cases hlook : alookup st.ip_to_host p with
  | none => rw [hlook] at h2; simp at h2
  | some pn =>
  have c1 : (alookup st.peer_last_announce_time p).isNone = false := by
    cases hx : alookup st.peer_last_announce_time p with
    | none => rw [hx] at h1; simp at h1
    | some v => rfl
  have c3 : (alookup st.peer_buffers p).isNone = false := by
    cases hx : alookup st.peer_buffers p with
    | none => rw [hx] at h3; simp at h3
    | some v => rfl
  have hmem : p ∈ dgetD st.host_to_ips pn [] := hinv p pn hlook
  have heq : dropPeer st p =
      ({ last_announce_time := st.last_announce_time,
         peer_last_announce_time := adel st.peer_last_announce_time p,
         host_to_ips := aset (aset st.host_to_ips pn (dgetD st.host_to_ips pn []))
           pn ((dgetD st.host_to_ips pn []).filter (fun y => decide (y ≠ p))),
         ip_to_host := adel st.ip_to_host p,
         peer_buffers := adel st.peer_buffers p }, none) := by
    unfold dropPeer
    dsimp only
    simp only [c1, c3, hlook, Bool.false_eq_true, if_false, sremove_of_mem hmem]
  rw [heq]
  dsimp only
  refine ⟨rfl, ?_, ?_, ?_, ?_, ?_, ?_, ?_⟩
  · -- invariant preserved
    intro ip nm hl
    rw [alookup_adel] at hl
    by_cases hip : p = ip
    · rw [if_pos hip] at hl; cases hl
    · rw [if_neg hip] at hl
      have hm := hinv ip nm hl
      have hne : ip ≠ p := fun he => hip he.symm
      by_cases hpn : pn = nm
      · subst hpn
        rw [dgetD_aset_self]
        exact (mem_filter_ne _ _ _).mpr ⟨hm, hne⟩
      · rw [dgetD_aset_ne _ _ _ hpn, dgetD_aset_ne _ _ _ hpn]
        exact hm
  · rw [alookup_adel, if_pos rfl]
  · rw [alookup_adel, if_pos rfl]
  · rw [alookup_adel, if_pos rfl]
  · intro name hname
    have : pn = name := Option.some.inj hname
    subst this
    rw [dgetD_aset_self]
    intro hcontra
    exact ((mem_filter_ne _ _ _).mp hcontra).2 rfl
  · intro q hq
    have hpq : ¬ p = q := fun he => hq he.symm
    refine ⟨?_, ?_, ?_⟩ <;> rw [alookup_adel, if_neg hpq]
  · intro q nm hq
    by_cases hpn : pn = nm
    · subst hpn
      rw [dgetD_aset_self]
      intro hcontra
      exact hq ((mem_filter_ne _ _ _).mp hcontra).1
    · rw [dgetD_aset_ne _ _ _ hpn, dgetD_aset_ne _ _ _ hpn]
      exact hq

theorem dropPeers_spec (l : List IpAddr) :
    ∀ st : NetState, PeerMapInv st →
    (∀ p ∈ l, (alookup st.peer_last_announce_time p).isSome = true ∧
       (alookup st.ip_to_host p).isSome = true ∧
       (alookup st.peer_buffers p).isSome = true) →
    l.Nodup →
    (dropPeers st l).2 = none ∧
    PeerMapInv (dropPeers st l).1 ∧
    (∀ p ∈ l,
      alookup (dropPeers st l).1.peer_last_announce_time p = none ∧
      alookup (dropPeers st l).1.peer_buffers p = none ∧
      alookup (dropPeers st l).1.ip_to_host p = none ∧
      (∀ name, alookup st.ip_to_host p = some name →
        p ∉ dgetD (dropPeers st l).1.host_to_ips name [])) ∧
    (∀ q, q ∉ l →
      alookup (dropPeers st l).1.peer_last_announce_time q
          = alookup st.peer_last_announce_time q ∧
      alookup (dropPeers st l).1.peer_buffers q = alookup st.peer_buffers q ∧
      alookup (dropPeers st l).1.ip_to_host q = alookup st.ip_to_host q) ∧
    (∀ q nm, q ∉ dgetD st.host_to_ips nm [] →
      q ∉ dgetD (dropPeers st l).1.host_to_ips nm []) := by
  induction l with
  | nil =>
    intro st hinv _ _
    exact ⟨rfl, hinv, by simp, fun q _ => ⟨rfl, rfl, rfl⟩, fun q nm hq => hq⟩
  | cons p rest ih =>
    intro st hinv hmem hnd
    obtain ⟨hp1, hp2, hp3⟩ := hmem p (by simp)
    have hd := dropPeer_spec st p hinv hp1 hp2 hp3
    rcases hdp : dropPeer st p with ⟨st1, e⟩
    rw [hdp] at hd
    dsimp only at hd
    obtain ⟨hdE, hdInv, hdL, hdB, hdI, hdName, hdPres, hdMono⟩ := hd
    subst hdE
    have hnotmem : p ∉ rest := (List.nodup_cons.mp hnd).1
    have hnd1 : rest.Nodup := (List.nodup_cons.mp hnd).2
    have hrun : dropPeers st (p :: rest) = dropPeers st1 rest := by
      show (match dropPeer st p with
            | (st', none) => dropPeers st' rest
            | (st', some e) => (st', some e)) = dropPeers st1 rest
      rw [hdp]
    have hmem1 : ∀ r ∈ rest, (alookup st1.peer_last_announce_time r).isSome = true ∧
        (alookup st1.ip_to_host r).isSome = true ∧
        (alookup st1.peer_buffers r).isSome = true := by
      intro r hr
      have hrp : r ≠ p := fun he2 => hnotmem (he2 ▸ hr)
      obtain ⟨e1, e2, e3⟩ := hdPres r hrp
      obtain ⟨m1, m2, m3⟩ := hmem r (by simp [hr])
      exact ⟨by rw [e1]; exact m1, by rw [e3]; exact m2, by rw [e2]; exact m3⟩
    have ih' := ih st1 hdInv hmem1 hnd1
    obtain ⟨ihE, ihInv, ihDrop, ihPres, ihMono⟩ := ih'
    rw [hrun]
    refine ⟨ihE, ihInv, ?_, ?_, ?_⟩
    · intro q hq
      rcases List.mem_cons.mp hq with hq | hq
      · subst hq
        obtain ⟨e1, e2, e3⟩ := ihPres q hnotmem
        refine ⟨by rw [e1]; exact hdL, by rw [e2]; exact hdB, by rw [e3]; exact hdI, ?_⟩
        intro name hname
        exact ihMono q name (hdName name hname)
      · have hrp : q ≠ p := fun he2 => hnotmem (he2 ▸ hq)
        obtain ⟨d1, d2, d3, d4⟩ := ihDrop q hq
        refine ⟨d1, d2, d3, ?_⟩
        intro name hname
        obtain ⟨e1, e2, e3⟩ := hdPres q hrp
        exact d4 name (by rw [e3]; exact hname)
    · intro q hq
      have hqp : q ≠ p := fun he2 => hq (by simp [he2])
      have hqr : q ∉ rest := fun hr => hq (by simp [hr])
      obtain ⟨e1, e2, e3⟩ := hdPres q hqp
      obtain ⟨f1, f2, f3⟩ := ihPres q hqr
      exact ⟨by rw [f1, e1], by rw [f2, e2], by rw [f3, e3]⟩
    · intro q nm hq
      exact ihMono q nm (hdMono q nm hq)

theorem toDrop_isSome (st : NetState) (now : Nat) :
    ∀ p ∈ toDrop st now, (alookup st.peer_last_announce_time p).isSome = true := by
  intro p hp
  unfold toDrop at hp
  rcases List.mem_map.mp hp with ⟨pr, hpr, hfst⟩
  have hmem : pr ∈ st.peer_last_announce_time := List.mem_of_mem_filter hpr
  subst hfst
  unfold alookup
  cases hf : st.peer_last_announce_time.find? (fun q => decide (q.1 = pr.1)) with
  | none =>
    have := List.find?_eq_none.mp hf pr hmem
    simp at this
  | some v => simp

theorem toDrop_nodup (st : NetState) (now : Nat)
    (h : (akeys st.peer_last_announce_time).Nodup) : (toDrop st now).Nodup := by
  unfold toDrop
  unfold akeys at h
  exact h.sublist ((List.filter_sublist _).map Prod.fst)

/-- Claim C5 (confirmed): given the peer-map coherence invariant (and the
key-set conditions the engine maintains), processing a received Announce
packet preserves the invariant, `on_announce_timeout` preserves it for
either send outcome, the TTL sweep runs without a `KeyError`, and every
TTL-evicted peer is removed from all four structures: its timestamp, its
buffer, its forward entry, and its membership in `host_to_ips[old_name]`. -/
theorem announce_engine_invariant (st : NetState) (host : IpAddr) (packet : List Nat)
    (now now2 : Nat)
    (hmap : peerMapInvCheck st = true) (hkeys : peerKeysInvCheck st = true) :
    PeerMapInv (processPacket st host packet now).1 ∧
    (∀ send_ok, PeerMapInv (on_announce_timeout st now2 send_ok).1) ∧
    (dropPeers st (toDrop st now2)).2 = none ∧
    PeerMapInv (dropPeers st (toDrop st now2)).1 ∧
    (∀ peer ∈ toDrop st now2,
      alookup (dropPeers st (toDrop st now2)).1.peer_last_announce_time peer = none ∧
      alookup (dropPeers st (toDrop st now2)).1.peer_buffers peer = none ∧
      alookup (dropPeers st (toDrop st now2)).1.ip_to_host peer = none ∧
      (∀ old_name, alookup st.ip_to_host peer = some old_name →
        peer ∉ dgetD (dropPeers st (toDrop st now2)).1.host_to_ips old_name [])) := by
  have hinv := peerMapInvCheck_sound st hmap
  obtain ⟨hnd, hkey⟩ := peerKeysInvCheck_sound st hkeys
  have hmem : ∀ p ∈ toDrop st now2,
      (alookup st.peer_last_announce_time p).isSome = true ∧
      (alookup st.ip_to_host p).isSome = true ∧
      (alookup st.peer_buffers p).isSome = true := by
    intro p hp
    have hs := toDrop_isSome st now2 p hp
    obtain ⟨hi, hb⟩ := hkey p hs
    exact ⟨hs, hi, hb⟩
  have hd := dropPeers_spec (toDrop st now2) st hinv hmem (toDrop_nodup st now2 hnd)
  refine ⟨processPacket_inv st host packet now hinv, ?_, hd.1, hd.2.1, hd.2.2.1⟩
  intro send_ok
  by_cases hth : now2 - st.last_announce_time < ANNOUNCE_ALARM
  · simp only [on_announce_timeout, if_pos hth]
    exact hinv
  · unfold on_announce_timeout
    rw [if_neg hth]
    dsimp only
    have hsame : toDrop { st with last_announce_time := now2 } now2 = toDrop st now2 := rfl
    rw [hsame]
    have hd2 := dropPeers_spec (toDrop st now2) { st with last_announce_time := now2 }
      hinv hmem (toDrop_nodup st now2 hnd)
    exact hd2.2.1

/-- Witness for C5: a state with one peer (IP `'1'`, hostname `'a'`) whose
last announce is 30+ seconds stale at `now = 100`; the sweep drops it from
all four structures and an incoming announce preserves the invariant. -/
theorem announce_engine_invariant_witness :
    (dropPeers ⟨0, [([49], 0)], [(HostField.str [97], [[49]])],
        [([49], HostField.str [97])], [([49], [])]⟩
      (toDrop ⟨0, [([49], 0)], [(HostField.str [97], [[49]])],
        [([49], HostField.str [97])], [([49], [])]⟩ 100)).2 = none ∧
    (alookup (dropPeers ⟨0, [([49], 0)], [(HostField.str [97], [[49]])],
        [([49], HostField.str [97])], [([49], [])]⟩
      (toDrop ⟨0, [([49], 0)], [(HostField.str [97], [[49]])],
        [([49], HostField.str [97])], [([49], [])]⟩ 100)).1.ip_to_host [49] = none ∧
     alookup (dropPeers ⟨0, [([49], 0)], [(HostField.str [97], [[49]])],
        [([49], HostField.str [97])], [([49], [])]⟩
      (toDrop ⟨0, [([49], 0)], [(HostField.str [97], [[49]])],
        [([49], HostField.str [97])], [([49], [])]⟩ 100)).1.peer_last_announce_time [49] = none) :=
  ⟨(announce_engine_invariant ⟨0, [([49], 0)], [(HostField.str [97], [[49]])],
        [([49], HostField.str [97])], [([49], [])]⟩ [49] [] 0 100
      (by decide) (by decide)).2.2.1,
    ((announce_engine_invariant ⟨0, [([49], 0)], [(HostField.str [97], [[49]])],
        [([49], HostField.str [97])], [([49], [])]⟩ [49] [] 0 100
      (by decide) (by decide)).2.2.2.2 [49] (by decide)).2.2.1,
    ((announce_engine_invariant ⟨0, [([49], 0)], [(HostField.str [97], [[49]])],
        [([49], HostField.str [97])], [([49], [])]⟩ [49] [] 0 100
      (by decide) (by decide)).2.2.2.2 [49] (by decide)).1⟩

theorem opt_sublist {α : Type} {x : α} {l : List α} (h : l = [x] ∨ l = []) :
    List.Sublist l [x] := by
  rcases h with rfl | rfl
  · exact List.Sublist.refl _
  · exact List.nil_sublist _

theorem triple_sublist {α : Type} (a b c : α) (l1 l2 l3 : List α)
    (h1 : l1 = [a] ∨ l1 = []) (h2 : l2 = [b] ∨ l2 = []) (h3 : l3 = [c] ∨ l3 = []) :
    List.Sublist (l1 ++ l2 ++ l3) [a, b, c] := by
  have := List.Sublist.append (List.Sublist.append (opt_sublist h1) (opt_sublist h2))
    (opt_sublist h3)
  simpa using this

theorem dispatchFd_sublist (cfg : PollCfg) (fd flag : Nat) :
    List.Sublist (dispatchFd cfg fd flag) [DispatchItem.call fd RxEvent.readable,
      DispatchItem.call fd RxEvent.writable, DispatchItem.call fd RxEvent.error] := by
  unfold dispatchFd
  apply triple_sublist
  · by_cases h : RxEvent.readable ∈ flags_to_event_set cfg flag <;> simp [h]
  · by_cases h : RxEvent.writable ∈ flags_to_event_set cfg flag <;> simp [h]
  · by_cases h : RxEvent.error ∈ flags_to_event_set cfg flag <;> simp [h]

theorem filter_isCallTo_dispatchFd_self (cfg : PollCfg) (fd flag : Nat) :
    (dispatchFd cfg fd flag).filter (isCallTo fd) = dispatchFd cfg fd flag := by
  unfold dispatchFd
  by_cases h1 : RxEvent.readable ∈ flags_to_event_set cfg flag <;>
    by_cases h2 : RxEvent.writable ∈ flags_to_event_set cfg flag <;>
      by_cases h3 : RxEvent.error ∈ flags_to_event_set cfg flag <;>
        simp [h1, h2, h3, isCallTo]

theorem filter_isCallTo_dispatchFd_ne (cfg : PollCfg) {f fd : Nat} (h : ¬ f = fd)
    (flag : Nat) : (dispatchFd cfg f flag).filter (isCallTo fd) = [] := by
  have hb : (f == fd) = false := by simp [h]
  unfold dispatchFd
  by_cases h1 : RxEvent.readable ∈ flags_to_event_set cfg flag <;>
    by_cases h2 : RxEvent.writable ∈ flags_to_event_set cfg flag <;>
      by_cases h3 : RxEvent.error ∈ flags_to_event_set cfg flag <;>
        simp [h1, h2, h3, isCallTo, hb]

theorem filter_isCallTo_steps (steps : List Nat) (fd : Nat) :
    (steps.map DispatchItem.step).filter (isCallTo fd) = [] := by
  induction steps with
  | nil => rfl
  | cons s t ih => simp [isCallTo, ih]

theorem pollTrace_filter_not_mem (cfg : PollCfg) (events : List (Nat × Nat))
    (steps : List Nat) (fd : Nat) (h : fd ∉ events.map Prod.fst) :
    (pollTrace cfg events steps).filter (isCallTo fd) = [] := by
  induction events with
  | nil => exact filter_isCallTo_steps steps fd
  | cons pr rest ih =>
    rcases pr with ⟨f, flag⟩
    have hf : ¬ f = fd := by
      intro he
      exact h (by simp [he])
    have hrest : fd ∉ rest.map Prod.fst := fun hm => h (by simp [hm])
    show (dispatchFd cfg f flag ++ pollTrace cfg rest steps).filter (isCallTo fd) = []
    rw [List.filter_append, filter_isCallTo_dispatchFd_ne cfg hf flag, ih hrest]
    rfl

theorem pollTrace_order (cfg : PollCfg) (events : List (Nat × Nat)) (steps : List Nat)
    (fd : Nat) (hnd : (events.map Prod.fst).Nodup) :
    List.Sublist ((pollTrace cfg events steps).filter (isCallTo fd))
      [DispatchItem.call fd RxEvent.readable, DispatchItem.call fd RxEvent.writable,
        DispatchItem.call fd RxEvent.error] := by
  induction events with
  | nil =>
    rw [show pollTrace cfg [] steps = steps.map DispatchItem.step from rfl,
      filter_isCallTo_steps]
    exact List.nil_sublist _
  | cons pr rest ih =>
    rcases pr with ⟨f, flag⟩
    have hnd2 := List.nodup_cons.mp
      (show (f :: rest.map Prod.fst).Nodup from hnd)
    show List.Sublist ((dispatchFd cfg f flag ++ pollTrace cfg rest steps).filter (isCallTo fd)) _
    rw [List.filter_append]
    by_cases hf : f = fd
    · subst hf
      rw [filter_isCallTo_dispatchFd_self,
        pollTrace_filter_not_mem cfg rest steps f hnd2.1, List.append_nil]
      exact dispatchFd_sublist cfg f flag
    · rw [filter_isCallTo_dispatchFd_ne cfg hf flag, List.nil_append]
      exact ih hnd2.2

theorem count_step_map (steps : List Nat) (sid : Nat) :
    (steps.map DispatchItem.step).count (DispatchItem.step sid) = steps.count sid := by
  induction steps with
  | nil => rfl
  | cons s t ih => simp [List.count_cons, ih]

theorem count_step_dispatchFd (cfg : PollCfg) (f flag sid : Nat) :
    (dispatchFd cfg f flag).count (DispatchItem.step sid) = 0 := by
  unfold dispatchFd
  by_cases h1 : RxEvent.readable ∈ flags_to_event_set cfg flag <;>
    by_cases h2 : RxEvent.writable ∈ flags_to_event_set cfg flag <;>
      by_cases h3 : RxEvent.error ∈ flags_to_event_set cfg flag <;>
        simp [h1, h2, h3, List.count_cons]

theorem pollTrace_count_step (cfg : PollCfg) (events : List (Nat × Nat))
    (steps : List Nat) (sid : Nat) :
    (pollTrace cfg events steps).count (DispatchItem.step sid) = steps.count sid := by
  induction events with
  | nil => exact count_step_map steps sid
  | cons pr rest ih =>
    rcases pr with ⟨f, flag⟩
    show (dispatchFd cfg f flag ++ pollTrace cfg rest steps).count (DispatchItem.step sid)
      = steps.count sid
    rw [List.count_append, count_step_dispatchFd, ih, Nat.zero_add]

theorem filter_call_map (ev : RxEvent) (l : List Nat) (fd : Nat) (hnd : l.Nodup) :
    (l.map (fun f => DispatchItem.call f ev)).filter (isCallTo fd)
      = if fd ∈ l then [DispatchItem.call fd ev] else [] := by
  induction l with
  | nil => rfl
  | cons a t ih =>
    obtain ⟨ha_not, ht⟩ := List.nodup_cons.mp hnd
    by_cases ha : a = fd
    · subst ha
      have hnt : ¬ a ∈ t := ha_not
      simp [isCallTo, ih ht, hnt]
    · have hb : (a == fd) = false := by simp [ha]
      have hmem : (fd ∈ a :: t) ↔ (fd ∈ t) := by
        constructor
        · intro h
          rcases List.mem_cons.mp h with h | h
          · exact absurd h.symm ha
          · exact h
        · intro h
          exact List.mem_cons.mpr (Or.inr h)
      rw [List.map_cons, List.filter_cons]
      simp only [isCallTo, hb, cond_false]
      rw [ih ht]
      by_cases hm : fd ∈ t
      · simp [hm, hmem]
      · simp [hm, hmem]

theorem count_step_call_map (ev : RxEvent) (l : List Nat) (sid : Nat) :
    (l.map (fun f => DispatchItem.call f ev)).count (DispatchItem.step sid) = 0 := by
  induction l with
  | nil => rfl
  | cons a t ih => simp [List.count_cons, ih]

theorem selectPollTrace_order (hc : Bool) (rlist wlist xlist steps : List Nat) (fd : Nat)
    (h1 : rlist.Nodup) (h2 : wlist.Nodup) (h3 : xlist.Nodup) :
    List.Sublist ((selectPollTrace hc rlist wlist xlist steps).filter (isCallTo fd))
      [DispatchItem.call fd RxEvent.readable, DispatchItem.call fd RxEvent.writable,
        DispatchItem.call fd RxEvent.error] := by
  unfold selectPollTrace
  cases hc with
  | false =>
    rw [if_neg (by simp), filter_isCallTo_steps]
    exact List.nil_sublist _
  | true =>
    rw [if_pos rfl, List.filter_append, List.filter_append, List.filter_append,
      filter_isCallTo_steps, List.append_nil, filter_call_map _ _ _ h1,
      filter_call_map _ _ _ h2, filter_call_map _ _ _ h3]
    apply triple_sublist
    · by_cases m : fd ∈ rlist <;> simp [m]
    · by_cases m : fd ∈ wlist <;> simp [m]
    · by_cases m : fd ∈ xlist <;> simp [m]

theorem selectPollTrace_count (hc : Bool) (rlist wlist xlist steps : List Nat) (sid : Nat) :
    (selectPollTrace hc rlist wlist xlist steps).count (DispatchItem.step sid)
      = steps.count sid := by
  unfold selectPollTrace
  cases hc with
  | false => rw [if_neg (by simp)]; exact count_step_map steps sid
  | true =>
    rw [if_pos rfl, List.count_append, List.count_append, List.count_append,
      count_step_call_map, count_step_call_map, count_step_call_map, count_step_map]
    omega

/-- Claim C7 (confirmed): in a `poll` call of either reactor, the callbacks
dispatched for any single ready file descriptor form a subsequence of
`[READABLE, WRITABLE, ERROR]` — that order and nothing else — and every
registered step callback runs exactly once per poll, whatever the number of
ready events, including zero (`pollTrace cfg [] steps` is exactly the step
callbacks, and the `select` fallback's no-client branch likewise). -/
theorem reactor_poll_spec (cfg : PollCfg) (events : List (Nat × Nat)) (steps : List Nat)
    (fd sid : Nat) (hc : Bool) (rlist wlist xlist : List Nat) :
    ((events.map Prod.fst).Nodup →
      List.Sublist ((pollTrace cfg events steps).filter (isCallTo fd))
        [DispatchItem.call fd RxEvent.readable, DispatchItem.call fd RxEvent.writable,
          DispatchItem.call fd RxEvent.error]) ∧
    (steps.Nodup → sid ∈ steps →
      (pollTrace cfg events steps).count (DispatchItem.step sid) = 1) ∧
    pollTrace cfg [] steps = steps.map DispatchItem.step ∧
    selectPollTrace false rlist wlist xlist steps = steps.map DispatchItem.step ∧
    (rlist.Nodup → wlist.Nodup → xlist.Nodup →
      List.Sublist ((selectPollTrace hc rlist wlist xlist steps).filter (isCallTo fd))
        [DispatchItem.call fd RxEvent.readable, DispatchItem.call fd RxEvent.writable,
          DispatchItem.call fd RxEvent.error]) ∧
    (steps.Nodup → sid ∈ steps →
      (selectPollTrace hc rlist wlist xlist steps).count (DispatchItem.step sid) = 1) := by
  refine ⟨fun hnd => pollTrace_order cfg events steps fd hnd,
    fun hnd hm => ?_, rfl, by simp [selectPollTrace],
    fun h1 h2 h3 => selectPollTrace_order hc rlist wlist xlist steps fd h1 h2 h3,
    fun hnd hm => ?_⟩
  · rw [pollTrace_count_step]
    exact List.count_eq_one_of_mem hnd hm
  · rw [selectPollTrace_count]
    exact List.count_eq_one_of_mem hnd hm

/-- Witness for C7 on a concrete poll batch: fd 7 ready for reading and
writing with one step callback 9, and a `select` batch where fd 7 is in both
the read and error lists. -/
theorem reactor_poll_spec_witness :
    List.Sublist ((pollTrace ⟨1, 2, [4]⟩ [(7, 3)] [9]).filter (isCallTo 7))
        [DispatchItem.call 7 RxEvent.readable, DispatchItem.call 7 RxEvent.writable,
          DispatchItem.call 7 RxEvent.error] ∧
      (pollTrace ⟨1, 2, [4]⟩ [(7, 3)] [9]).count (DispatchItem.step 9) = 1 ∧
      (selectPollTrace true [7] [] [7] [9]).count (DispatchItem.step 9) = 1 :=
  ⟨(reactor_poll_spec ⟨1, 2, [4]⟩ [(7, 3)] [9] 7 9 true [7] [] [7]).1 (by decide),
    (reactor_poll_spec ⟨1, 2, [4]⟩ [(7, 3)] [9] 7 9 true [7] [] [7]).2.1
      (by decide) (by decide),
    (reactor_poll_spec ⟨1, 2, [4]⟩ [(7, 3)] [9] 7 9 true [7] [] [7]).2.2.2.2.2
      (by decide) (by decide)⟩
